import Mathlib

/-!
Shallow embedding of the grid-search model-selection notebook
(`model_selection`): enumeration of parameter combinations via
`itertools.product`, a sequential scoring loop that mutates one shared
spline model through `set_params`, and selection of the best parameter
set through `np.argmax`. Numeric scores are modelled as rationals.
-/

namespace ModelSelection

abbrev Score := ℚ

abbrev Damping := Option ℚ

abbrev Mindist := ℚ

abbrev Params := Damping × Mindist

/-- Embeds `itertools.product(xs, ys)` over two candidate lists, as in the
notebook's `itertools.product(dampings, mindists)`: all pairs in nested-loop
order, the second (last-declared) list varying fastest. -/
def product2 {α β : Type} (xs : List α) (ys : List β) : List (α × β) :=
  (xs.map fun x => ys.map fun y => (x, y)).flatten

/-- Candidate damping values from the notebook: `[None, 1e-4, 1e-3, 1e-2]`. -/
def dampings : List Damping := [none, some (1/10000), some (1/1000), some (1/100)]

/-- Candidate mindist values from the notebook: `[5e3, 10e3, 50e3, 100e3]`. -/
def mindists : List Mindist := [5000, 10000, 50000, 100000]

/-- Embeds `parameter_sets = [dict(damping=combo[0], mindist=combo[1]) for
combo in itertools.product(dampings, mindists)]`. -/
def parameter_sets : List Params := product2 dampings mindists

/-- One pass of numpy's argmax scan: carry the pair (best index, best value)
and the current index, replacing the best only on strictly greater values, so
the first occurrence of the maximum wins. -/
def scanBest : List Score → Nat × Score → Nat → Nat × Score
  | [], b, _ => b
  | y :: ys, b, i => if b.2 < y then scanBest ys (i, y) (i + 1) else scanBest ys b (i + 1)

/-- Embeds `np.argmax(scores)`: index of the first occurrence of the maximum;
`none` models the ValueError numpy raises on an empty sequence. -/
def np_argmax (l : List Score) : Option Nat :=
  match l with
  | [] => none
  | x :: xs => some (scanBest xs (0, x) 1).1

/-- Embeds the evaluation loop of the notebook: `spline = vd.Spline();
scores = []; for params in parameter_sets: spline.set_params(**params);
score = np.mean(vd.cross_val_score(spline, ...)); scores.append(score)`.
The spline's tunable state is its current parameter assignment, `set_params`
replaces it in place, and the cross-validation score of a configured spline
is a function of those parameters (the dataset is fixed). Returns the final
spline state together with the collected scores. -/
def sweep_loop {C : Type} (score : C → Score) : List C → C → C × List Score
  | [], spline => (spline, [])
  | p :: ps, _spline =>
      let rest := sweep_loop score ps p
      (rest.1, score p :: rest.2)

/-- Embeds the selection cell: `best = np.argmax(scores)` followed by the
subscript reads `scores[best]` and `parameter_sets[best]`. Indexing is
partial: `none` models an IndexError or the argmax ValueError. -/
def select {C : Type} (configs : List C) (scores : List Score) : Option (C × Score) :=
  match np_argmax scores with
  | none => none
  | some b =>
    match configs[b]?, scores[b]? with
    | some c, some s => some (c, s)
    | _, _ => none

/-- The three quantities the notebook reports at the end: the best parameter
set, its score, and the baseline score of the default spline. -/
structure Result (C : Type) where
  best_params : C
  best_score : Score
  score_default : Score

/-- The notebook pipeline end to end: baseline score of a default spline
(cell computing `score_default`), sequential sweep over the configurations
starting from a fresh default spline, then argmax selection. -/
def grid_search {C : Type} (score : C → Score) (default_params : C)
    (configs : List C) : Option (Result C) :=
  let swept := sweep_loop score configs default_params
  match select configs swept.2 with
  | none => none
  | some cs => some ⟨cs.1, cs.2, score default_params⟩

/-- Modelled from the spec: the generic Grid Search Evaluator's error taxonomy
(`InvalidInput`; `EvaluationFailure` carrying the offending Configuration) is
described in the spec but absent from src/, where the notebook hardcodes a
two-parameter space and adds no error handling of its own. -/
inductive GridSearchError (C E : Type) where
  | invalidInput : GridSearchError C E
  | evaluationFailure : C → E → GridSearchError C E
  deriving DecidableEq

/-- Modelled from the spec: enumeration of a general k-parameter Space as the
Cartesian product of the candidate sequences, last-declared parameter fastest
(nested-loop order), generalizing the notebook's `itertools.product` call. A
Configuration is an ordered assignment of one value to each parameter name. -/
def enumerate {V : Type} : List (String × List V) → List (List (String × V))
  | [] => [[]]
  | (name, vals) :: rest =>
      (vals.map fun v => (enumerate rest).map fun cfg => (name, v) :: cfg).flatten

/-- Modelled from the spec: sequential evaluation with a fallible scoring
function; the first failure aborts the sweep and is propagated with the
offending Configuration attached, mirroring how an exception raised inside
the notebook's loop would abort it. -/
def eval_sweep {C E : Type} (score : C → Except E Score) :
    List C → Except (GridSearchError C E) (List (C × Score))
  | [] => .ok []
  | c :: cs =>
    match score c with
    | .error e => .error (.evaluationFailure c e)
    | .ok s =>
      match eval_sweep score cs with
      | .error err => .error err
      | .ok recs => .ok ((c, s) :: recs)

/-- Modelled from the spec: the number of scoring calls the sequential sweep
makes; evaluation stops immediately after the first failing Configuration. -/
def scoring_calls {C E : Type} (score : C → Except E Score) : List C → Nat
  | [] => 0
  | c :: cs =>
    match score c with
    | .error _ => 1
    | .ok _ => 1 + scoring_calls score cs

/-- Modelled from the spec: the full generic evaluator. An empty Parameter
Space is rejected as `InvalidInput` before any scoring call; otherwise the
Configurations are enumerated and swept sequentially, and the stable argmax
of the recorded scores is selected. The baseline score of the default
configuration is passed through for reporting. -/
def spec_grid_search {V E : Type} (space : List (String × List V))
    (score : List (String × V) → Except E Score) (score_dflt : Score) :
    Except (GridSearchError (List (String × V)) E) (Result (List (String × V))) :=
  if space.isEmpty then .error .invalidInput
  else
    match eval_sweep score (enumerate space) with
    | .error err => .error err
    | .ok recs =>
      match np_argmax (recs.map Prod.snd) with
      | none => .error .invalidInput
      | some b =>
        match recs.get? b with
        | none => .error .invalidInput
        | some cs => .ok ⟨cs.1, cs.2, score_dflt⟩

/-- Modelled from the spec: scoring calls performed by the full evaluator;
zero when the Parameter Space is rejected as empty. -/
def spec_scoring_calls {V E : Type} (space : List (String × List V))
    (score : List (String × V) → Except E Score) : Nat :=
  if space.isEmpty then 0 else scoring_calls score (enumerate space)

/-- Invariant of numpy's argmax scan: starting from a best pair that indexes
into the scanned prefix of `l`, with strictly smaller values before the best
index and no larger value anywhere in the prefix, the scan ends at an
in-bounds index holding its reported value, every position before the result
holds a strictly smaller value, and no position of `l` holds a larger one. -/
lemma scanBest_spec (l : List Score) :
    ∀ (ys : List Score) (bi i : ℕ) (bv : Score)
      (hbi : bi < l.length), i ≤ l.length → bi < i →
      l[bi] = bv →
      ys = l.drop i →
      (∀ j (hj : j < l.length), j < bi → l[j] < bv) →
      (∀ j (hj : j < l.length), j < i → l[j] ≤ bv) →
      ∃ hr : (scanBest ys (bi, bv) i).1 < l.length,
        l[(scanBest ys (bi, bv) i).1] = (scanBest ys (bi, bv) i).2 ∧
        (∀ j (hj : j < l.length), j < (scanBest ys (bi, bv) i).1 →
          l[j] < (scanBest ys (bi, bv) i).2) ∧
        (∀ j (hj : j < l.length), l[j] ≤ (scanBest ys (bi, bv) i).2) := by
  intro ys
  induction ys with
  | nil =>
    intro bi i bv hbi hi hbii hbv hys hlt hle
    refine ⟨hbi, hbv, ?_, ?_⟩
    · intro j hj hji
      exact hbv ▸ hlt j hj hji
    · intro j hj
      have hli : l.length ≤ i := by
        by_contra hc
        push_neg at hc
        rw [List.drop_eq_getElem_cons hc] at hys
        exact List.noConfusion hys
      exact hbv ▸ hle j hj (lt_of_lt_of_le hj hli)
  | cons y ys ih =>
    intro bi i bv hbi hi hbii hbv hys hlt hle
    have hil : i < l.length := by
      by_contra hc
      push_neg at hc
      rw [List.drop_eq_nil_iff.mpr hc] at hys
      exact List.noConfusion hys
    rw [List.drop_eq_getElem_cons hil] at hys
    have hy : y = l[i] := (List.cons.injEq _ _ _ _ ▸ hys).1
    have hys' : ys = l.drop (i + 1) := (List.cons.injEq _ _ _ _ ▸ hys).2
    simp only [scanBest]
    split_ifs with hcase
    · refine ih i (i + 1) y hil (by omega) (by omega) hy.symm hys' ?_ ?_
      · intro j hj hji
        exact lt_of_le_of_lt (hle j hj hji) hcase
      · intro j hj hji
        rcases Nat.lt_succ_iff_lt_or_eq.mp hji with hji' | hji'
        · exact le_of_lt (lt_of_le_of_lt (hle j hj hji') hcase)
        · subst hji'
          exact le_of_eq hy.symm
    · refine ih bi (i + 1) bv hbi (by omega) (by omega) hbv hys' hlt ?_
      intro j hj hji
      rcases Nat.lt_succ_iff_lt_or_eq.mp hji with hji' | hji'
      · exact hle j hj hji'
      · subst hji'
        exact hy ▸ le_of_not_lt hcase

/-- `np.argmax` on a non-empty list returns an in-bounds index of a maximal
element, and every earlier position holds a strictly smaller value (first
occurrence of the maximum). -/
lemma np_argmax_spec (l : List Score) (h : l ≠ []) :
    ∃ r, np_argmax l = some r ∧ ∃ hr : r < l.length,
      (∀ j (hj : j < l.length), l[j] ≤ l[r]) ∧
      (∀ j (hj : j < l.length), j < r → l[j] < l[r]) := by
  match l with
  | x :: xs =>
    refine ⟨(scanBest xs (0, x) 1).1, rfl, ?_⟩
    have h0 : (0 : ℕ) < (x :: xs).length := by simp
    obtain ⟨hr, hval, hfirst, hmax⟩ :=
      scanBest_spec (x :: xs) xs 0 1 x h0 (by simp) (by omega) rfl rfl
        (by intro j hj hji; omega)
        (by intro j hj hji
            interval_cases j
            · exact le_refl _)
    refine ⟨hr, ?_, ?_⟩
    · intro j hj
      exact hval ▸ hmax j hj
    · intro j hj hjr
      exact hval ▸ hfirst j hj hjr

/-- The scores collected by the evaluation loop are exactly the image of the
configuration list under the scoring function, in enumeration order, no matter
which spline state the loop starts from. -/
lemma sweep_loop_scores {C : Type} (score : C → Score) :
    ∀ (configs : List C) (init : C),
      (sweep_loop score configs init).2 = configs.map score := by
  intro configs
  induction configs with
  | nil => intro init; rfl
  | cons p ps ih =>
    intro init
    show score p :: (sweep_loop score ps p).2 = _
    rw [List.map_cons, ih p]

/-- After a non-empty sweep the shared spline holds the parameters set by the
last iteration. -/
lemma sweep_loop_final {C : Type} (score : C → Score) :
    ∀ (configs : List C) (init : C) (h : configs ≠ []),
      (sweep_loop score configs init).1 = configs.getLast h := by
  intro configs
  induction configs with
  | nil => intro init h; exact absurd rfl h
  | cons p ps ih =>
    intro init h
    cases ps with
    | nil => rfl
    | cons q qs =>
      show (sweep_loop score (q :: qs) p).1 = _
      rw [ih p (List.cons_ne_nil q qs)]
      exact (List.getLast_cons _).symm

/-- Selection over the recorded scores of a non-empty sweep returns the
earliest configuration attaining the maximal score, paired with that score. -/
lemma select_spec {C : Type} (score : C → Score) (configs : List C)
    (h : configs ≠ []) :
    ∃ i, ∃ hi : i < configs.length,
      select configs (configs.map score) = some (configs[i], score configs[i]) ∧
      (∀ j (hj : j < configs.length), score configs[j] ≤ score configs[i]) ∧
      (∀ j (hj : j < configs.length), j < i → score configs[j] < score configs[i]) := by
  have hm : configs.map score ≠ [] := by
    simpa using h
  obtain ⟨r, hargm, hr, hmax, hfirst⟩ := np_argmax_spec (configs.map score) hm
  rw [List.length_map] at hr
  refine ⟨r, hr, ?_, ?_, ?_⟩
  · simp only [select, hargm]
    rw [List.getElem?_eq_getElem hr,
      List.getElem?_eq_getElem (by simpa using hr : r < (List.map score configs).length)]
    simp
  · intro j hj
    have := hmax j (by simpa using hj)
    simpa using this
  · intro j hj hjr
    have := hfirst j (by simpa using hj) hjr
    simpa using this

/-- Flattening a map whose pieces all have length `n` yields `xs.length * n`
elements. -/
lemma length_flatten_map {α β : Type} (f : α → List β) (n : ℕ)
    (hf : ∀ x, (f x).length = n) :
    ∀ xs : List α, ((xs.map f).flatten).length = xs.length * n := by
  intro xs
  induction xs with
  | nil => simp
  | cons x xs ih =>
    simp only [List.map_cons, List.flatten_cons, List.length_append, hf, ih,
      List.length_cons]
    ring

/-- The two-list product enumerates `|xs| * |ys|` pairs. -/
lemma product2_length {α β : Type} (xs : List α) (ys : List β) :
    (product2 xs ys).length = xs.length * ys.length :=
  length_flatten_map _ ys.length (fun x => by simp) xs

/-- Nested-loop order of the two-list product: the pair at position
`i * |ys| + j` is `(xs[i], ys[j])`, so the second list varies fastest. -/
lemma product2_getElem? {α β : Type} (xs : List α) (ys : List β) :
    ∀ (i j : ℕ) (hi : i < xs.length) (hj : j < ys.length),
      (product2 xs ys)[i * ys.length + j]? = some (xs[i], ys[j]) := by
  induction xs with
  | nil => intro i j hi hj; simp at hi
  | cons x xs ih =>
    intro i j hi hj
    cases i with
    | zero =>
      simp only [product2, List.map_cons, List.flatten_cons, Nat.zero_mul,
        Nat.zero_add]
      rw [List.getElem?_append, if_pos (by simpa using hj)]
      simp [hj]
    | succ i =>
      have hi' : i < xs.length := by simpa using hi
      have harith : (i + 1) * ys.length + j = ys.length + (i * ys.length + j) := by
        ring
      simp only [product2, List.map_cons, List.flatten_cons, harith]
      rw [List.getElem?_append, if_neg (by simp)]
      have hsub : ys.length + (i * ys.length + j) - (List.map (fun y => (x, y)) ys).length
          = i * ys.length + j := by
        simp
      rw [hsub]
      have := ih i j hi' hj
      simp only [product2] at this
      simpa using this

/-- Indexing a flattening of equal-length blocks: when every block `f x` has
length `n`, the element at position `i * n + t` of the flattened list is the
element at position `t` of the `i`-th block. -/
lemma flatten_map_getElem? {α β : Type} (f : α → List β) (n : ℕ)
    (hn : ∀ x, (f x).length = n) :
    ∀ (xs : List α) (i t : ℕ) (hi : i < xs.length) (ht : t < n),
      ((xs.map f).flatten)[i * n + t]? = (f xs[i])[t]? := by
  intro xs
  induction xs with
  | nil => intro i t hi ht; simp at hi
  | cons x xs ih =>
    intro i t hi ht
    cases i with
    | zero =>
      simp only [List.map_cons, List.flatten_cons, Nat.zero_mul, Nat.zero_add]
      rw [List.getElem?_append, if_pos (by rw [hn x]; exact ht)]
      simp
    | succ i =>
      have hi' : i < xs.length := by simpa using hi
      have harith : (i + 1) * n + t = n + (i * n + t) := by ring
      simp only [List.map_cons, List.flatten_cons, harith]
      rw [List.getElem?_append, if_neg (by rw [hn x]; omega)]
      have hsub : n + (i * n + t) - (f x).length = i * n + t := by
        rw [hn x]; omega
      rw [hsub, ih i t hi' ht]
      simp

/-- Nested-loop order of the k-parameter enumeration: for each value of the
first-declared parameter, held fixed, the entire enumeration of the remaining
parameters is emitted before the next value is taken, so later-declared
parameters vary faster. -/
lemma enumerate_getElem? {V : Type} (name : String) (vals : List V)
    (rest : List (String × List V)) (i t : ℕ)
    (hi : i < vals.length) (ht : t < (enumerate rest).length) :
    (enumerate ((name, vals) :: rest))[i * (enumerate rest).length + t]? =
      some ((name, vals[i]) :: (enumerate rest)[t]) := by
  have h := flatten_map_getElem?
    (fun v => (enumerate rest).map fun cfg => (name, v) :: cfg)
    (enumerate rest).length (fun v => by simp) vals i t hi ht
  rw [show enumerate ((name, vals) :: rest) =
    (vals.map fun v => (enumerate rest).map fun cfg => (name, v) :: cfg).flatten
    from rfl, h, List.getElem?_map, List.getElem?_eq_getElem ht]
  rfl

/-- Enumerating a k-parameter Space yields the product of the candidate list
lengths. -/
lemma enumerate_length {V : Type} :
    ∀ space : List (String × List V),
      (enumerate space).length = (space.map fun p => p.2.length).prod := by
  intro space
  induction space with
  | nil => rfl
  | cons p rest ih =>
    obtain ⟨name, vals⟩ := p
    simp only [enumerate, List.map_cons, List.prod_cons]
    rw [length_flatten_map _ (enumerate rest).length (fun v => by simp) vals, ih]

/-- If the scoring function fails first at position `i` of the configuration
list, the sequential sweep stops there: it reports the failure with that
configuration attached and performs exactly `i + 1` scoring calls. -/
lemma eval_sweep_fail {C E : Type} (score : C → Except E Score) :
    ∀ (cs : List C) (i : ℕ) (hi : i < cs.length) (e : E),
      score cs[i] = .error e →
      (∀ j (hj : j < cs.length), j < i → ∃ s, score cs[j] = .ok s) →
      eval_sweep score cs = .error (.evaluationFailure cs[i] e) ∧
      scoring_calls score cs = i + 1 := by
  intro cs
  induction cs with
  | nil => intro i hi e herr hok; simp at hi
  | cons c cs ih =>
    intro i hi e herr hok
    cases i with
    | zero =>
      simp only [List.getElem_cons_zero] at herr
      exact ⟨by simp [eval_sweep, herr], by simp [scoring_calls, herr]⟩
    | succ i =>
      obtain ⟨s, hs⟩ := hok 0 (by simp) (Nat.succ_pos i)
      simp only [List.getElem_cons_zero] at hs
      have hi' : i < cs.length := by simpa using hi
      have herr' : score cs[i] = .error e := by simpa using herr
      have hok' : ∀ j (hj : j < cs.length), j < i → ∃ s, score cs[j] = .ok s := by
        intro j hj hji
        have := hok (j + 1) (by simpa using hj) (by omega)
        simpa using this
      obtain ⟨h1, h2⟩ := ih i hi' e herr' hok'
      refine ⟨by simp [eval_sweep, hs, h1], ?_⟩
      simp only [scoring_calls, hs, h2]
      omega

/-- C1: Selection is a stable argmax: for every non-empty configuration list
with its recorded scores, `select` returns the configuration whose score
equals the maximum over all recorded scores, and on ties the one appearing
earliest in enumeration order; in particular the single-parameter space
`{x: [1,2,3]}` enumerates exactly 3 configurations and, when all scores are
equal, selection returns the configuration `x = 1`. -/
theorem claim_C1_selection_stable_argmax :
    (∀ (C : Type) (score : C → Score) (configs : List C), configs ≠ [] →
      ∃ i, ∃ hi : i < configs.length,
        select configs (configs.map score) = some (configs[i], score configs[i]) ∧
        (∀ j (hj : j < configs.length), score configs[j] ≤ score configs[i]) ∧
        (∀ j (hj : j < configs.length), j < i →
          score configs[j] < score configs[i])) ∧
    (enumerate [("x", ([1, 2, 3] : List ℚ))]).length = 3 ∧
    (∀ s : Score,
      select [(1 : ℚ), 2, 3] ([(1 : ℚ), 2, 3].map fun _ => s) = some (1, s)) := by
  refine ⟨fun C score configs h => select_spec score configs h, rfl, ?_⟩
  intro s
  simp [select, np_argmax, scanBest, lt_self_iff_false]

/-- Witness for C1 at the identity scoring function on `[1, 2, 3]`. -/
theorem claim_C1_selection_stable_argmax_witness :
    (([(1 : ℚ), 2, 3] : List ℚ) ≠ []) ∧
    (∃ i, ∃ hi : i < ([(1 : ℚ), 2, 3] : List ℚ).length,
      select [(1 : ℚ), 2, 3] ([(1 : ℚ), 2, 3].map fun c => c) =
        some (([(1 : ℚ), 2, 3] : List ℚ)[i], ([(1 : ℚ), 2, 3] : List ℚ)[i]) ∧
      (∀ j (hj : j < ([(1 : ℚ), 2, 3] : List ℚ).length),
        ([(1 : ℚ), 2, 3] : List ℚ)[j] ≤ ([(1 : ℚ), 2, 3] : List ℚ)[i]) ∧
      (∀ j (hj : j < ([(1 : ℚ), 2, 3] : List ℚ).length), j < i →
        ([(1 : ℚ), 2, 3] : List ℚ)[j] < ([(1 : ℚ), 2, 3] : List ℚ)[i])) :=
  ⟨by decide, claim_C1_selection_stable_argmax.1 ℚ (fun c => c) [1, 2, 3] (by decide)⟩

/-- C2: the number of configurations enumerated for a k-parameter Space is
the product of the candidate list sizes; the notebook's two-list instance
enumerates `|dampings| * |mindists|` parameter sets. -/
theorem claim_C2_configuration_count :
    (∀ (V : Type) (space : List (String × List V)),
      (enumerate space).length = (space.map fun p => p.2.length).prod) ∧
    (∀ (α β : Type) (xs : List α) (ys : List β),
      (product2 xs ys).length = xs.length * ys.length) ∧
    parameter_sets.length = dampings.length * mindists.length :=
  ⟨fun V space => enumerate_length space,
   fun α β xs ys => product2_length xs ys,
   product2_length dampings mindists⟩

/-- C3: enumeration follows the nested-loop order of the Cartesian product
for every Parameter Space: the empty space enumerates the single empty
configuration, and for any space the first-declared parameter is held fixed
while the entire enumeration of the remaining parameters is emitted (the
configuration at position `i * |enumerate rest| + t` assigns the head
parameter its `i`-th value and continues with the `t`-th configuration of the
rest), so the last-declared parameter varies fastest; likewise for the
source's two-list product, where the pair at position `i * |ys| + j` is
`(xs[i], ys[j])`; in particular `{damping: [None, 0.01], mindist: [5000,
50000]}` enumerates `(None,5000), (None,50000), (0.01,5000), (0.01,50000)`
in that order, in both forms. -/
theorem claim_C3_enumeration_order :
    (∀ (V : Type), enumerate ([] : List (String × List V)) = [[]]) ∧
    (∀ (V : Type) (name : String) (vals : List V)
      (rest : List (String × List V)) (i t : ℕ)
      (hi : i < vals.length) (ht : t < (enumerate rest).length),
      (enumerate ((name, vals) :: rest))[i * (enumerate rest).length + t]? =
        some ((name, vals[i]) :: (enumerate rest)[t])) ∧
    (∀ (α β : Type) (xs : List α) (ys : List β) (i j : ℕ)
      (hi : i < xs.length) (hj : j < ys.length),
      (product2 xs ys)[i * ys.length + j]? = some (xs[i], ys[j])) ∧
    product2 [none, some (1/100 : ℚ)] [(5000 : ℚ), 50000] =
      [(none, 5000), (none, 50000), (some (1/100), 5000), (some (1/100), 50000)] ∧
    enumerate [("damping", ([none, some (1/100 : ℚ)] : List Damping)),
        ("mindist", [some (5000 : ℚ), some 50000])] =
      [[("damping", none), ("mindist", some 5000)],
       [("damping", none), ("mindist", some 50000)],
       [("damping", some (1/100)), ("mindist", some 5000)],
       [("damping", some (1/100)), ("mindist", some 50000)]] :=
  ⟨fun V => rfl,
   fun V name vals rest i t hi ht => enumerate_getElem? name vals rest i t hi ht,
   fun α β xs ys i j hi hj => product2_getElem? xs ys i j hi hj,
   rfl, rfl⟩

/-- Witness for C3 at digits `i = 1`, `t = 0` of the k-parameter scenario
space and position `i = 1`, `j = 0` of its two-list form. -/
theorem claim_C3_enumeration_order_witness :
    (1 < ([none, some (1/100 : ℚ)] : List Damping).length) ∧
    (0 < (enumerate [("mindist", [some (5000 : ℚ), some 50000])]).length) ∧
    (0 < ([(5000 : ℚ), 50000] : List ℚ).length) ∧
    ((enumerate [("damping", ([none, some (1/100 : ℚ)] : List Damping)),
        ("mindist", [some (5000 : ℚ), some 50000])])[2]? =
      some [("damping", some (1/100 : ℚ)), ("mindist", some (5000 : ℚ))]) ∧
    (product2 ([none, some (1/100 : ℚ)] : List Damping)
        ([(5000 : ℚ), 50000] : List ℚ))[1 * ([(5000 : ℚ), 50000] : List ℚ).length + 0]? =
      some (([none, some (1/100 : ℚ)] : List Damping)[1],
        ([(5000 : ℚ), 50000] : List ℚ)[0]) :=
  ⟨by decide, by decide, by decide,
    claim_C3_enumeration_order.2.1 Damping "damping" [none, some (1/100 : ℚ)]
      [("mindist", [some (5000 : ℚ), some 50000])] 1 0 (by decide) (by decide),
    claim_C3_enumeration_order.2.2.1 Damping ℚ [none, some (1/100 : ℚ)]
      [(5000 : ℚ), 50000] 1 0 (by decide) (by decide)⟩

/-- C4: on an empty Parameter Space the evaluator fails with `InvalidInput`
and performs zero scoring calls. -/
theorem claim_C4_empty_space_invalid_input (V E : Type)
    (score : List (String × V) → Except E Score) (score_dflt : Score) :
    spec_grid_search ([] : List (String × List V)) score score_dflt =
      .error .invalidInput ∧
    spec_scoring_calls ([] : List (String × List V)) score = 0 :=
  ⟨rfl, rfl⟩

/-- Scenario space for the failure-propagation witness: a 2-by-2 Parameter
Space enumerating a 4-configuration sweep, with candidate values encoded as
naturals. -/
def scenario_space : List (String × List ℕ) :=
  [("damping", [0, 1]), ("mindist", [5000, 50000])]

/-- Scenario scoring function that raises exactly on the third configuration
of the sweep over `scenario_space`. -/
def scenario_score (cfg : List (String × ℕ)) : Except Unit Score :=
  if cfg = [("damping", 1), ("mindist", 5000)] then .error ()
  else .ok 0

/-- C5: when the scoring function first raises at the `i`-th enumerated
configuration, the evaluator propagates `EvaluationFailure` with that
configuration attached, makes exactly `i + 1` scoring calls (so the remaining
configurations of the sweep are never scored), and produces no Result. -/
theorem claim_C5_failure_propagation (V E : Type)
    (space : List (String × List V))
    (score : List (String × V) → Except E Score) (score_dflt : Score)
    (i : ℕ) (hi : i < (enumerate space).length) (e : E)
    (hne : space ≠ [])
    (herr : score (enumerate space)[i] = .error e)
    (hok : ∀ j (hj : j < (enumerate space).length), j < i →
      ∃ s, score (enumerate space)[j] = .ok s) :
    spec_grid_search space score score_dflt =
      .error (.evaluationFailure (enumerate space)[i] e) ∧
    spec_scoring_calls space score = i + 1 ∧
    i + 1 ≤ (enumerate space).length := by
  obtain ⟨h1, h2⟩ := eval_sweep_fail score (enumerate space) i hi e herr hok
  have hemp : space.isEmpty = false := by
    cases space with
    | nil => exact absurd rfl hne
    | cons p rest => rfl
  refine ⟨?_, ?_, by omega⟩
  · simp [spec_grid_search, hemp, h1]
  · simp [spec_scoring_calls, hemp, h2]

/-- Witness for C5: the third configuration of the 4-configuration scenario
sweep raises; the sweep aborts after 3 scoring calls with the failure
referencing that configuration. -/
theorem claim_C5_failure_propagation_witness :
    (2 < (enumerate scenario_space).length) ∧
    (scenario_space ≠ []) ∧
    (scenario_score (enumerate scenario_space)[2] = .error ()) ∧
    (spec_grid_search scenario_space scenario_score 0 =
        .error (.evaluationFailure (enumerate scenario_space)[2] ()) ∧
      spec_scoring_calls scenario_space scenario_score = 2 + 1 ∧
      2 + 1 ≤ (enumerate scenario_space).length) := by
  refine ⟨by decide, by decide, by rfl,
    claim_C5_failure_propagation ℕ Unit scenario_space scenario_score 0
      2 (by decide) () (by decide) (by rfl) ?_⟩
  intro j hj hj2
  interval_cases j
  · exact ⟨0, rfl⟩
  · exact ⟨0, rfl⟩

/-- C6: the evaluator processes configurations one at a time in enumeration
order, recording one (configuration, score) pair per configuration; the
record sequence matches the configuration enumeration order exactly. -/
theorem claim_C6_sequential_records (C : Type) (score : C → Score)
    (configs : List C) (init : C) :
    (sweep_loop score configs init).2 = configs.map score ∧
    configs.zip (sweep_loop score configs init).2 =
      configs.map (fun c => (c, score c)) ∧
    (sweep_loop score configs init).2.length = configs.length := by
  refine ⟨sweep_loop_scores score configs init, ?_, ?_⟩
  · rw [sweep_loop_scores score configs init]
    simpa using List.zip_map' id score configs
  · rw [sweep_loop_scores score configs init, List.length_map]

/-- C7: the evaluator is deterministic: two runs over the same configuration
list with the same scoring function produce identical score sequences, even
from different initial spline states. -/
theorem claim_C7_deterministic (C : Type) (score : C → Score)
    (configs : List C) (s1 s2 : C) :
    (sweep_loop score configs s1).2 = (sweep_loop score configs s2).2 := by
  rw [sweep_loop_scores, sweep_loop_scores]

/-- C8: a produced Result carries exactly the three reported parts: the
best-scoring configuration, that configuration's score, which is maximal over
all recorded scores, and the baseline score of the default configuration. -/
theorem claim_C8_result_parts (C : Type) (score : C → Score)
    (default_params : C) (configs : List C) (h : configs ≠ []) :
    ∃ r : Result C, grid_search score default_params configs = some r ∧
      r.score_default = score default_params ∧
      ∃ i, ∃ hi : i < configs.length,
        r.best_params = configs[i] ∧
        r.best_score = score configs[i] ∧
        ∀ j (hj : j < configs.length), score configs[j] ≤ r.best_score := by
  obtain ⟨i, hi, hsel, hmax, hfirst⟩ := select_spec score configs h
  refine ⟨⟨configs[i], score configs[i], score default_params⟩, ?_, rfl, i, hi,
    rfl, rfl, fun j hj => hmax j hj⟩
  simp only [grid_search, sweep_loop_scores, hsel]

/-- Witness for C8 on the identity scoring function over `[1, 2]`. -/
theorem claim_C8_result_parts_witness :
    (([(1 : ℚ), 2] : List ℚ) ≠ []) ∧
    ∃ r : Result ℚ, grid_search (fun c => c) 0 [(1 : ℚ), 2] = some r ∧
      r.score_default = 0 ∧
      ∃ i, ∃ hi : i < ([(1 : ℚ), 2] : List ℚ).length,
        r.best_params = ([(1 : ℚ), 2] : List ℚ)[i] ∧
        r.best_score = ([(1 : ℚ), 2] : List ℚ)[i] ∧
        ∀ j (hj : j < ([(1 : ℚ), 2] : List ℚ).length),
          ([(1 : ℚ), 2] : List ℚ)[j] ≤ r.best_score :=
  ⟨by simp, claim_C8_result_parts ℚ (fun c => c) 0 [1, 2] (by simp)⟩

/-- C9: after the sweep the single shared spline holds the last-enumerated
configuration (it is overwritten by `set_params` on every iteration), while
selection is a function of the configuration list and the recorded scores
alone, never touching the model again; concretely, a sweep whose best
configuration is not the last leaves the spline on the last one. -/
theorem claim_C9_model_holds_last_config (C : Type) (score : C → Score)
    (init : C) (configs : List C) (h : configs ≠ []) :
    (sweep_loop score configs init).1 = configs.getLast h ∧
    grid_search score init configs =
      (select configs (configs.map score)).map
        (fun cs => Result.mk cs.1 cs.2 (score init)) ∧
    ((sweep_loop (fun c : ℚ => -c) [(0 : ℚ), 1] 0).1 = 1 ∧
      ∃ r : Result ℚ, grid_search (fun c : ℚ => -c) 0 [(0 : ℚ), 1] = some r ∧
        r.best_params = 0) := by
  refine ⟨sweep_loop_final score configs init h, ?_, rfl, ?_⟩
  · simp only [grid_search, sweep_loop_scores]
    cases select configs (configs.map score) <;> rfl
  · exact ⟨_, rfl, rfl⟩

/-- Witness for C9 on the identity scoring function over `[5, 7]`. -/
theorem claim_C9_model_holds_last_config_witness :
    (([(5 : ℚ), 7] : List ℚ) ≠ []) ∧
    ((sweep_loop (fun c => c) [(5 : ℚ), 7] 0).1 =
        ([(5 : ℚ), 7] : List ℚ).getLast (by simp) ∧
      grid_search (fun c => c) 0 [(5 : ℚ), 7] =
        (select [(5 : ℚ), 7] ([(5 : ℚ), 7].map fun c => c)).map
          (fun cs => Result.mk cs.1 cs.2 0) ∧
      ((sweep_loop (fun c : ℚ => -c) [(0 : ℚ), 1] 0).1 = 1 ∧
        ∃ r : Result ℚ, grid_search (fun c : ℚ => -c) 0 [(0 : ℚ), 1] = some r ∧
          r.best_params = 0)) :=
  ⟨by simp, claim_C9_model_holds_last_config ℚ (fun c => c) 0 [5, 7] (by simp)⟩

/-- C10: for every non-empty configuration list the recorded score sequence
has exactly the configuration sequence's length, so the argmax index exists,
is in bounds, and indexing either sequence with it succeeds. -/
theorem claim_C10_argmax_in_bounds (C : Type) (score : C → Score)
    (init : C) (configs : List C) (h : configs ≠ []) :
    (sweep_loop score configs init).2.length = configs.length ∧
    ∃ b, np_argmax (sweep_loop score configs init).2 = some b ∧
      b < configs.length ∧
      (configs[b]?).isSome ∧
      (((sweep_loop score configs init).2)[b]?).isSome := by
  rw [sweep_loop_scores]
  refine ⟨by simp, ?_⟩
  obtain ⟨r, hargm, hr, hmax, hfirst⟩ :=
    np_argmax_spec (configs.map score) (by simpa using h)
  have hr' : r < configs.length := by simpa using hr
  refine ⟨r, hargm, hr', ?_, ?_⟩
  · rw [List.getElem?_eq_getElem hr']
    rfl
  · rw [List.getElem?_eq_getElem hr]
    rfl

/-- Witness for C10 on the identity scoring function over `[3]`. -/
theorem claim_C10_argmax_in_bounds_witness :
    (([(3 : ℚ)] : List ℚ) ≠ []) ∧
    ((sweep_loop (fun c => c) [(3 : ℚ)] 0).2.length = ([(3 : ℚ)] : List ℚ).length ∧
      ∃ b, np_argmax (sweep_loop (fun c => c) [(3 : ℚ)] 0).2 = some b ∧
        b < ([(3 : ℚ)] : List ℚ).length ∧
        ((([(3 : ℚ)] : List ℚ))[b]?).isSome ∧
        (((sweep_loop (fun c => c) [(3 : ℚ)] 0).2)[b]?).isSome) :=
  ⟨by simp, claim_C10_argmax_in_bounds ℚ (fun c => c) 0 [3] (by simp)⟩

end ModelSelection
